import Mathlib

/-!
Verification of the ProdigiPulse label-batch generator and related UI logic.

The definitions below are shallow embeddings of the Python source:
  * `src/manualTasks.py` — `sendFormat`, `PDFPreview` (pagination, key
    navigation, barcode numbering, employee assignment),
    `EmployeeAssignmentTable.add_employees`,
    `manualTaskScreen.activate_assigned_tasks` (posting distribution),
  * `src/prodigallyScreen.py` — `FlowChartWidget.display_flow`.

Python strings are modelled as Lean `String`s, with character-level helpers
mirroring the exact Python primitives used by the source (`str.strip`,
`str.lower`, `str.upper`, `str.zfill`, `int(...)` parsing, decimal
formatting).  Machine integers are `Int`/`Nat` (Python ints are unbounded, so
no overflow modelling is needed).  Code that raises is embedded with
`Except`.
-/

namespace ProdigiPulse

/-! ### Python string primitives -/

/-- Whitespace characters recognised by Python's `str.strip()` and
`int(...)` (ASCII subset). -/
def pyIsSpace (c : Char) : Bool :=
  c = ' ' || c = '\t' || c = '\n' || c = '\r' || c = '\x0b' || c = '\x0c'

/-- Python `str.strip()` on a character list. -/
def pyStripList (cs : List Char) : List Char :=
  ((cs.dropWhile pyIsSpace).reverse.dropWhile pyIsSpace).reverse

/-- Python `str.strip()`. -/
def pyStrip (s : String) : String :=
  String.mk (pyStripList s.toList)

/-- Python `str.lower()` (ASCII). -/
def pyLower (s : String) : String :=
  String.mk (s.toList.map Char.toLower)

/-- Python `str.upper()` (ASCII). -/
def pyUpper (s : String) : String :=
  String.mk (s.toList.map Char.toUpper)

/-- Decimal digit character for `d < 10`. -/
def digitChr (d : Nat) : Char := Char.ofNat (48 + d)

/-- Fuel-based digit extraction; `fuel = n + 1` always suffices. -/
def natDigitsAux : Nat → Nat → List Char
  | 0, _ => []
  | fuel + 1, n =>
    if n < 10 then [digitChr n]
    else natDigitsAux fuel (n / 10) ++ [digitChr (n % 10)]

/-- Decimal digit list of a natural number, most significant first
(mirrors Python's decimal rendering of a non-negative int). -/
def natDigits (n : Nat) : List Char :=
  natDigitsAux (n + 1) n

/-- Python `str(n)` for an unbounded integer. -/
def intToStr (i : Int) : String :=
  if i < 0 then String.mk ('-' :: natDigits i.natAbs)
  else String.mk (natDigits i.natAbs)

/-- Numeric value of a digit list (most significant first), underscores
skipped as Python's `int()` does once the shape has been validated. -/
def digitsVal (cs : List Char) : Nat :=
  (cs.filter (· ≠ '_')).foldl (fun a c => a * 10 + (c.toNat - 48)) 0

/-- Shape check for the digit part of a Python int literal after the first
digit: digits, with single underscores allowed only between digits. -/
def pyDigitTail : List Char → Bool
  | [] => true
  | [c] => if c = '_' then false else c.isDigit
  | c :: d :: rest =>
    if c = '_' then d.isDigit && pyDigitTail rest
    else c.isDigit && pyDigitTail (d :: rest)

/-- Shape check for the digit part of a Python int literal: at least one
digit, underscores only between digits. -/
def pyDigitsSeq : List Char → Bool
  | [] => false
  | c :: rest => c.isDigit && pyDigitTail rest

/-- Sign-and-digits step of Python `int(s)`, after whitespace stripping. -/
def pyIntParseCore : List Char → Option Int
  | [] => none
  | c :: rest =>
    if c = '+' then
      if pyDigitsSeq rest then some (digitsVal rest) else none
    else if c = '-' then
      if pyDigitsSeq rest then some (-(digitsVal rest : Int)) else none
    else
      if pyDigitsSeq (c :: rest) then some (digitsVal (c :: rest)) else none

/-- Python `int(s)`: strip whitespace, optional sign, then a digit sequence
(with underscores between digits); `none` models `ValueError`. -/
def pyIntParse (s : String) : Option Int :=
  pyIntParseCore (pyStripList s.toList)

/-- Padding step of Python `str.zfill(w)` on the character list (`len` is
the original string length). -/
def zfillCore (w len : Nat) : List Char → List Char
  | [] => List.replicate w '0'
  | c :: rest =>
    if c = '-' ∨ c = '+' then c :: (List.replicate (w - len) '0' ++ rest)
    else List.replicate (w - len) '0' ++ (c :: rest)

/-- Python `str.zfill(w)`: left-pad with `'0'` to width `w`, keeping a
leading sign in front of the padding. -/
def zfill (w : Nat) (s : String) : String :=
  if w ≤ s.length then s
  else String.mk (zfillCore w s.length s.toList)

/-! ### Label expansion (`sendFormat`, manualTasks.py lines 965–988)

`sendFormat(data, pdf_preview, employee_multiplier)` walks the task rows in
order; a row whose quantity or barcode-count field fails `int(...)`, or
whose barcode count is `≤ 0`, is skipped; a valid row appends its caption
`f"{name} x {qty}"` exactly `count * employee_multiplier` times, where the
multiplier has first been clamped by `max(1, int(employee_multiplier or 1))`.
The caller `manualTaskScreen.send_and_update` (lines 2118–2128) passes
`employee_multiplier = max(1, employee_table.rowCount())`. -/

/-- Body of the `for row in data` loop of `sendFormat`, for rows that carry
the three table fields `(name, qty, barcodes)`. -/
def sendFormatLoop (m : Int) : List (String × String × String) → List String
  | [] => []
  | (name, qty, barcodes) :: rest =>
    (match pyIntParse barcodes, pyIntParse qty with
     | some count, some q =>
       if count ≤ 0 then []
       else List.replicate (count * m).toNat (name ++ " x " ++ intToStr q)
     | _, _ => []) ++ sendFormatLoop m rest

/-- `sendFormat` from manualTasks.py lines 965–988 (the resulting list is
what it hands to `pdf_preview.update_labels`). -/
def sendFormat (data : List (String × String × String)) (employee_multiplier : Int) :
    List String :=
  sendFormatLoop (max 1 employee_multiplier) data

/-- Spec-side helper (follows the claim's words): the barcode count of a
valid row, `0` for invalid rows. -/
def spec_rowBarcodeCount (row : String × String × String) : Nat :=
  match pyIntParse row.2.2, pyIntParse row.2.1 with
  | some count, some _ => if count ≤ 0 then 0 else count.toNat
  | _, _ => 0

/-- Spec-side helper (follows the claim's words): the caption
`"{taskName} x {quantity}"` of a row (junk for rows that do not parse;
such rows contribute zero labels anyway). -/
def spec_rowCaption (row : String × String × String) : String :=
  match pyIntParse row.2.1 with
  | some q => row.1 ++ " x " ++ intToStr q
  | none => row.1

theorem sendFormatLoop_eq (m : Int) (hm : 1 ≤ m) (data : List (String × String × String)) :
    sendFormatLoop m data =
      data.flatMap (fun row =>
        List.replicate (m.toNat * spec_rowBarcodeCount row) (spec_rowCaption row)) := by
  induction data with
  | nil => rfl
  | cons row rest ih =>
    obtain ⟨name, qty, barcodes⟩ := row
    simp only [sendFormatLoop, List.flatMap_cons, ih]
    congr 1
    simp only [spec_rowBarcodeCount, spec_rowCaption]
    cases hbc : pyIntParse barcodes with
    | none => simp
    | some count =>
      cases hq : pyIntParse qty with
      | none => simp
      | some q =>
        simp only []
        by_cases hc : count ≤ 0
        · simp [hc]
        · have h1 : (0 : Int) ≤ count := by omega
          have h2 : (0 : Int) ≤ m := by omega
          have : (count * m).toNat = m.toNat * count.toNat := by
            rw [show count * m = ((count.toNat : Int) * (m.toNat : Int)) by
                  rw [Int.toNat_of_nonneg h1, Int.toNat_of_nonneg h2],
              ← Int.natCast_mul, Int.toNat_natCast, Nat.mul_comm]
          simp [hc, this]

theorem sendFormat_flatMap (data : List (String × String × String)) (m : Int) :
    sendFormat data m =
      data.flatMap (fun row =>
        List.replicate ((max 1 m).toNat * spec_rowBarcodeCount row) (spec_rowCaption row)) :=
  sendFormatLoop_eq (max 1 m) (le_max_left 1 m) data

/-- Claim C1, counterexample: with two assignees, `send_and_update` passes
`employee_multiplier = 2` to `sendFormat`, and the single valid row
`("Foam Board", "25", "4")` yields `8` labels, not the claimed
`sum(barcodeCount over valid rows) = 4`. -/
theorem C1_counterexample_multiplier :
    ¬ ((sendFormat [("Foam Board", "25", "4")] 2).length =
        ([(("Foam Board", "25", "4") : String × String × String)].map
          spec_rowBarcodeCount).sum) := by
  decide

/-- Claim C1 (amended): for every task-row list and employee multiplier
`m`, label expansion produces, for each valid row, exactly
`barcodeCount * max(1, m)` labels with caption `"{taskName} x {quantity}"`
(invalid rows contribute nothing), so the total label count equals
`max(1, m) * sum(barcodeCount over valid rows)`; with a single assignee
(`m = 1`, the default) this is exactly the original claim. -/
theorem C1_sendFormat_expansion (data : List (String × String × String)) (m : Int) :
    sendFormat data m =
      data.flatMap (fun row =>
        List.replicate ((max 1 m).toNat * spec_rowBarcodeCount row) (spec_rowCaption row))
    ∧ (sendFormat data m).length = (max 1 m).toNat * (data.map spec_rowBarcodeCount).sum
    ∧ (sendFormat data 1).length = (data.map spec_rowBarcodeCount).sum := by
  have len : ∀ k : Int, (sendFormat data k).length =
      (max 1 k).toNat * (data.map spec_rowBarcodeCount).sum := by
    intro k
    rw [sendFormat_flatMap data k]
    induction data with
    | nil => simp
    | cons row rest ih => simp [List.flatMap_cons, ih, Nat.mul_add]
  refine ⟨sendFormat_flatMap data m, len m, ?_⟩
  simpa using len 1

/-! ### PDF-preview pagination (`PDFPreview`, manualTasks.py lines 490–616)

State of a `PDFPreview` as far as pagination is concerned: the label list,
the current page and the page count.  `__init__` (lines 492–494) sets
`labels = []`, `current_page = 0`, `total_pages = 1`. -/

structure PreviewState where
  labels : List String
  current_page : Nat
  total_pages : Nat
  deriving Repr, DecidableEq

/-- Initial pagination state from `PDFPreview.__init__`. -/
def initPreview : PreviewState :=
  { labels := [], current_page := 0, total_pages := 1 }

/-- `PDFPreview.update_labels` (lines 587–593): store the labels, set
`total_pages = max(1, (len(labels) + 11) // 12)` and reset
`current_page = 0`. -/
def update_labels (_st : PreviewState) (labels : List String) : PreviewState :=
  { labels := labels
    total_pages := max 1 ((labels.length + 11) / 12)
    current_page := 0 }

/-- Left/Up branch of `PDFPreview.keyPressEvent` (lines 597–602):
decrement `current_page` when `current_page > 0`, otherwise no-op. -/
def pressPrev (st : PreviewState) : PreviewState :=
  if st.current_page > 0 then { st with current_page := st.current_page - 1 } else st

/-- Right/Down branch of `PDFPreview.keyPressEvent` (lines 603–608):
increment `current_page` when `current_page < total_pages - 1`, otherwise
no-op. -/
def pressNext (st : PreviewState) : PreviewState :=
  if st.current_page < st.total_pages - 1 then
    { st with current_page := st.current_page + 1 }
  else st

/-- `PDFPreview.get_current_page_labels` (lines 612–616):
`labels[current_page*12 : current_page*12 + 12]`. -/
def get_current_page_labels (st : PreviewState) : List String :=
  (st.labels.take (st.current_page * 12 + 12)).drop (st.current_page * 12)

/-- The pagination events a `PDFPreview` reacts to. -/
inductive PreviewEvent where
  | next : PreviewEvent
  | prev : PreviewEvent
  | regen (labels : List String) : PreviewEvent

/-- One step of the page-navigation state machine. -/
def stepPreview (st : PreviewState) : PreviewEvent → PreviewState
  | .next => pressNext st
  | .prev => pressPrev st
  | .regen labels => update_labels st labels

/-- States of the navigation machine reachable from the initial state. -/
inductive ReachablePreview : PreviewState → Prop
  | init : ReachablePreview initPreview
  | step {st : PreviewState} (e : PreviewEvent) :
      ReachablePreview st → ReachablePreview (stepPreview st e)

theorem ceil_div_twelve (a : ℕ) : ⌈(a : ℚ) / 12⌉ = ((a + 11) / 12 : ℕ) := by
  have h1 : a ≤ 12 * ((a + 11) / 12) := by omega
  have h2 : 12 * ((a + 11) / 12) < a + 12 := by omega
  have hq1 : (a : ℚ) ≤ 12 * (((a + 11) / 12 : ℕ) : ℚ) := by exact_mod_cast h1
  have hq2 : 12 * (((a + 11) / 12 : ℕ) : ℚ) < (a : ℚ) + 12 := by exact_mod_cast h2
  rw [Int.ceil_eq_iff]
  constructor
  · rw [lt_div_iff₀ (by norm_num : (0 : ℚ) < 12)]
    have h : ((((a + 11) / 12 : ℕ) : ℚ) - 1) * 12 < (a : ℚ) := by linarith
    exact_mod_cast h
  · rw [div_le_iff₀ (by norm_num : (0 : ℚ) < 12)]
    have h : (a : ℚ) ≤ (((a + 11) / 12 : ℕ) : ℚ) * 12 := by linarith
    exact_mod_cast h

/-- Claim C5: for every label list, `update_labels` yields
`totalPages = max(1, ceil(labelCount / 12))` and resets to page 0; for any
page `p`, the labels shown are the slice `labels[p*12 : p*12+12]`; in
particular 13 labels yield 2 pages with 12 labels on page 0 and 1 on page
1, and the empty list yields 1 page. -/
theorem C5_pagination (st : PreviewState) (L : List String) (p : Nat) :
    ((update_labels st L).total_pages : ℤ) = max 1 ⌈(L.length : ℚ) / 12⌉
    ∧ (update_labels st L).current_page = 0
    ∧ get_current_page_labels { update_labels st L with current_page := p } =
        (L.drop (p * 12)).take 12
    ∧ (update_labels st (List.replicate 13 "x")).total_pages = 2
    ∧ (get_current_page_labels (update_labels st (List.replicate 13 "x"))).length = 12
    ∧ (get_current_page_labels
        { update_labels st (List.replicate 13 "x") with current_page := 1 }).length = 1
    ∧ (update_labels st []).total_pages = 1 := by
  refine ⟨?_, rfl, ?_, ?_, ?_, ?_, ?_⟩
  · rw [ceil_div_twelve]
    simp [update_labels]
  · simp [get_current_page_labels, update_labels, List.drop_take]
  · rfl
  · rfl
  · rfl
  · rfl

/-- Invariant of the navigation machine. -/
theorem reachable_invariant {st : PreviewState} (h : ReachablePreview st) :
    st.current_page + 1 ≤ st.total_pages ∧ 1 ≤ st.total_pages := by
  induction h with
  | init => exact ⟨by decide, by decide⟩
  | @step st e _ ih =>
    have h1 := ih.1
    have h2 := ih.2
    cases e with
    | next =>
      simp only [stepPreview, pressNext]
      split <;> constructor <;> (try simp) <;> omega
    | prev =>
      simp only [stepPreview, pressPrev]
      split <;> constructor <;> (try simp) <;> omega
    | regen L =>
      constructor <;> simp [stepPreview, update_labels]

/-- Claim C7: from every reachable state of the page-navigation machine,
`currentPage` stays within `[0, totalPages-1]`; "next" increments exactly
when `currentPage < totalPages - 1` and is otherwise a no-op, "previous"
decrements exactly when `currentPage > 0` and is otherwise a no-op, and
regenerating the label list resets `currentPage` to 0 while recomputing
`totalPages`. -/
theorem C7_navigation {st : PreviewState} (h : ReachablePreview st) :
    st.current_page + 1 ≤ st.total_pages
    ∧ (st.current_page < st.total_pages - 1 →
        (pressNext st).current_page = st.current_page + 1 ∧
        (pressNext st).labels = st.labels ∧ (pressNext st).total_pages = st.total_pages)
    ∧ (¬ st.current_page < st.total_pages - 1 → pressNext st = st)
    ∧ (0 < st.current_page →
        (pressPrev st).current_page = st.current_page - 1 ∧
        (pressPrev st).labels = st.labels ∧ (pressPrev st).total_pages = st.total_pages)
    ∧ (st.current_page = 0 → pressPrev st = st)
    ∧ (∀ L, (update_labels st L).current_page = 0 ∧
        (update_labels st L).total_pages = max 1 ((L.length + 11) / 12)) := by
  refine ⟨(reachable_invariant h).1, ?_, ?_, ?_, ?_, fun L => ⟨rfl, rfl⟩⟩
  · intro hlt
    simp [pressNext, hlt]
  · intro hge
    simp [pressNext, hge]
  · intro hpos
    simp [pressPrev, hpos]
  · intro hz
    simp [pressPrev, hz]

/-- Witness for Claim C7 at a concrete reachable state: after regenerating
with 13 labels the machine is on page 0 of 2 pages, and the invariant
holds there. -/
theorem C7_navigation_witness :
    (stepPreview initPreview (.regen (List.replicate 13 "x"))).current_page + 1 ≤
      (stepPreview initPreview (.regen (List.replicate 13 "x"))).total_pages :=
  (C7_navigation (ReachablePreview.step _ ReachablePreview.init)).1

/-! ### Employee assignment table (`EmployeeAssignmentTable`, manualTasks.py 1657–1684) -/

theorem pyStripList_eq (cs : List Char) :
    pyStripList cs = List.rdropWhile pyIsSpace (cs.dropWhile pyIsSpace) := rfl

theorem pyStripList_idem (cs : List Char) :
    pyStripList (pyStripList cs) = pyStripList cs := by
  have key : ∀ x : List Char, x.dropWhile pyIsSpace = x →
      (List.rdropWhile pyIsSpace x).dropWhile pyIsSpace =
        List.rdropWhile pyIsSpace x := by
    intro x hdx
    have hs : x = List.rdropWhile pyIsSpace x ++ (x.reverse.takeWhile pyIsSpace).reverse := by
      rw [List.rdropWhile, ← List.reverse_append, List.takeWhile_append_dropWhile,
        List.reverse_reverse]
    cases hy : List.rdropWhile pyIsSpace x with
    | nil => simp
    | cons a t =>
      rw [hy] at hs
      have hpa : pyIsSpace a = false := by
        by_contra hcon
        have hpa' : pyIsSpace a = true := by simpa using hcon
        rw [hs, List.cons_append, List.dropWhile_cons, hpa'] at hdx
        simp only [if_true] at hdx
        have hlen :=
          List.Sublist.length_le
            (List.dropWhile_sublist (l := t ++ (x.reverse.takeWhile pyIsSpace).reverse)
              (p := pyIsSpace))
        rw [hdx] at hlen
        simp at hlen
      simp [List.dropWhile_cons, hpa]
  rw [pyStripList_eq, pyStripList_eq]
  rw [key _ (List.dropWhile_idempotent _ _)]
  exact List.rdropWhile_idempotent _ _

theorem pyStrip_idem (s : String) : pyStrip (pyStrip s) = pyStrip s := by
  simp [pyStrip, pyStripList_idem]

/-- `EmployeeAssignmentTable._current_items_set` (lines 1657–1663): the set
of stored names, stripped and lower-cased (modelled as a list, membership
standing in for the Python set). -/
def currentItemsSet (rows : List String) : List String :=
  rows.map (fun r => pyLower (pyStrip r))

/-- `EmployeeAssignmentTable.add_employees` (lines 1665–1684): walk `names`
in order; strip each, skip empties, skip names whose lower-cased stripped
form is already present (in the table or added earlier in this call),
otherwise append the stripped name as a new row and record its key. -/
def add_employees (rows : List String) (names : List String) : List String :=
  (names.foldl
    (fun (st : List String × List String) name =>
      let norm := pyStrip name
      if norm = "" then st
      else if pyLower norm ∈ st.2 then st
      else (st.1 ++ [norm], st.2 ++ [pyLower norm]))
    (rows, currentItemsSet rows)).1

theorem add_employees_key_invariant (rows : List String) (names : List String) :
    (add_employees rows names,
      currentItemsSet (add_employees rows names)) =
    names.foldl
      (fun (st : List String × List String) name =>
        let norm := pyStrip name
        if norm = "" then st
        else if pyLower norm ∈ st.2 then st
        else (st.1 ++ [norm], st.2 ++ [pyLower norm]))
      (rows, currentItemsSet rows) := by
  unfold add_employees
  generalize hinit : (rows, currentItemsSet rows) = st0
  have hkey : st0.2 = currentItemsSet st0.1 := by rw [← hinit]
  clear hinit
  induction names generalizing st0 with
  | nil => simpa [Prod.ext_iff] using hkey.symm
  | cons name rest ih =>
    simp only [List.foldl_cons]
    apply ih
    by_cases h1 : pyStrip name = ""
    · simpa [h1] using hkey
    · by_cases h2 : pyLower (pyStrip name) ∈ st0.2
      · simpa [h1, h2] using hkey
      · simp only [h1, h2, if_neg, if_false]
        simp [currentItemsSet, hkey, pyStrip_idem]

/-- Claim C9: inserting a name whose trimmed, case-insensitive form already
appears in the assignment list is a no-op (no error is modelled: the code
path is a plain `continue`); adding `"Jane Doe"` and then `" jane doe "`
yields exactly one entry. -/
theorem C9_duplicate_noop (rows : List String) (name : String) :
    (pyLower (pyStrip name) ∈ currentItemsSet rows → add_employees rows [name] = rows)
    ∧ add_employees (add_employees [] ["Jane Doe"]) [" jane doe "] = ["Jane Doe"] := by
  constructor
  · intro hmem
    by_cases h1 : pyStrip name = ""
    · simp [add_employees, h1]
    · simp [add_employees, h1, hmem]
  · decide

/-- Witness for Claim C9: `"JANE  DOE"` is not stripped to `"Jane Doe"`,
but `" jane doe "` is a duplicate of `"Jane Doe"` and its insertion is a
no-op. -/
theorem C9_duplicate_noop_witness :
    pyLower (pyStrip " jane doe ") ∈ currentItemsSet ["Jane Doe"]
    ∧ add_employees ["Jane Doe"] [" jane doe "] = ["Jane Doe"] :=
  ⟨by decide, (C9_duplicate_noop ["Jane Doe"] " jane doe ").1 (by decide)⟩

/-! ### Posting distribution (`activate_assigned_tasks`, manualTasks.py 2243–2303)

`activate_assigned_tasks` regenerates each preview label's barcode id
(`f"m{start_num + global_idx:010d}"`, lines 2253–2257), groups them by
caption, and for each caption group slices it across the assignee list:
`per_emp = max(1, len(group) // len(employees))`,
`start = employees.index(emp) * per_emp`, `end = start + per_emp`, except
that the last employee's slice extends to the end of the group
(lines 2295–2303). -/

/-- The barcode-id group of a caption (`task_barcodes[label]`),
built from the flattened preview-label list exactly as lines 2253–2257 do. -/
def taskBarcodes (labels : List String) (start_num : Int) (label : String) : List String :=
  (labels.enum.filter (fun p => p.2 == label)).map
    (fun p => "m" ++ zfill 10 (intToStr (start_num + p.1)))

/-- The slice of a caption group that `run_post_all` sends to `emp`
(lines 2295–2303). -/
def allocatedBarcodes (employees : List String) (emp : String)
    (barcodes : List String) : List String :=
  let per_emp := max 1 (barcodes.length / employees.length)
  let start := employees.indexOf emp * per_emp
  let stop := if employees.getLast? = some emp then barcodes.length
              else start + per_emp
  (barcodes.take stop).drop start

/-- `allocatedBarcodes` at the employee in position `i`, in take/drop form. -/
theorem allocatedBarcodes_getElem (employees : List String) (hnd : employees.Nodup)
    (i : Nat) (hi : i < employees.length) (barcodes : List String) :
    allocatedBarcodes employees employees[i] barcodes =
      (if i = employees.length - 1 then
        barcodes.drop (i * max 1 (barcodes.length / employees.length))
      else
        (barcodes.drop (i * max 1 (barcodes.length / employees.length))).take
          (max 1 (barcodes.length / employees.length))) := by
  have hidx : employees.indexOf employees[i] = i := List.indexOf_getElem hnd i hi
  have hlast : (employees.getLast? = some employees[i]) ↔ i = employees.length - 1 := by
    rw [List.getLast?_eq_getElem?]
    have hl : employees.length - 1 < employees.length := by omega
    rw [List.getElem?_eq_getElem hl]
    constructor
    · intro h
      exact ((List.Nodup.getElem_inj_iff hnd).mp (Option.some.inj h)).symm
    · intro h
      subst h
      rfl
  simp only [allocatedBarcodes, hidx]
  by_cases h : i = employees.length - 1
  · rw [if_pos (hlast.mpr h), if_pos h, List.take_length]
  · rw [if_neg (fun hh => h (hlast.mp hh)), if_neg h, List.take_drop]

/-- Consecutive slices of width `p` (last slice takes the whole rest),
the shape in which `run_post_all` cuts a caption group across `n`
employees. -/
def segs (p : Nat) : Nat → List String → List (List String)
  | 0, _ => []
  | 1, l => [l]
  | n + 2, l => l.take p :: segs p (n + 1) (l.drop p)

theorem segs_length (p : Nat) : ∀ (n : Nat) (l : List String), (segs p n l).length = n
  | 0, _ => rfl
  | 1, _ => rfl
  | n + 2, l => by
    simp only [segs, List.length_cons]
    rw [segs_length p (n + 1) (l.drop p)]

theorem segs_flatten (p : Nat) : ∀ (n : Nat) (l : List String), 1 ≤ n →
    (segs p n l).flatten = l
  | 1, l, _ => by simp [segs]
  | n + 2, l, _ => by
    simp only [segs, List.flatten_cons]
    rw [segs_flatten p (n + 1) (l.drop p) (by omega), List.take_append_drop]

theorem segs_getElem (p : Nat) : ∀ (n : Nat) (l : List String) (i : Nat)
    (hi : i < (segs p n l).length),
    (segs p n l)[i] =
      if i = n - 1 then l.drop (i * p) else (l.drop (i * p)).take p
  | 1, l, 0, _ => by simp [segs]
  | n + 2, l, 0, _ => by simp [segs]
  | n + 2, l, i + 1, hi => by
    have hi' : i < (segs p (n + 1) (l.drop p)).length := by
      rw [segs_length] at hi ⊢
      omega
    simp only [segs, List.getElem_cons_succ]
    rw [segs_getElem p (n + 1) (l.drop p) i hi']
    have hd : (l.drop p).drop (i * p) = l.drop ((i + 1) * p) := by
      rw [List.drop_drop]
      congr 1
      ring
    have hcond : (i = n + 1 - 1) = (i + 1 = n + 2 - 1) := by
      simp only [eq_iff_iff]
      omega
    rw [hd]
    exact if_congr (iff_of_eq hcond) rfl rfl

/-- The per-employee slices of `run_post_all`, walked in employee-list
order, are exactly the consecutive `segs` slices of the caption group. -/
theorem allocated_map_eq_segs (employees : List String) (hnd : employees.Nodup)
    (barcodes : List String) :
    employees.map (fun emp => allocatedBarcodes employees emp barcodes) =
      segs (max 1 (barcodes.length / employees.length)) employees.length barcodes := by
  apply List.ext_getElem
  · rw [List.length_map, segs_length]
  · intro i hi hsi
    rw [List.length_map] at hi
    rw [List.getElem_map, allocatedBarcodes_getElem employees hnd i hi,
      segs_getElem]

/-- Claim C2, counterexample: for a caption group of 4 barcodes and
employees `["Alice", "Bob", "Carol"]`, the posting distribution
(`run_post_all`, lines 2295–2303) gives shares `[1, 1, 2]` in list order —
Alice receives 1 barcode, not the claimed `perEmployee + 1 = 2`; the
leftover goes to the LAST employee, not to the first `remainder`
employees. -/
theorem C2_counterexample_last_gets_extra :
    (["Alice", "Bob", "Carol"].map (fun e =>
        (allocatedBarcodes ["Alice", "Bob", "Carol"] e
          (taskBarcodes (List.replicate 4 "Foam Board x 25") 0 "Foam Board x 25")).length))
      = [1, 1, 2]
    ∧ ¬ ((allocatedBarcodes ["Alice", "Bob", "Carol"] "Alice"
          (taskBarcodes (List.replicate 4 "Foam Board x 25") 0 "Foam Board x 25")).length = 2) := by
  constructor
  · decide
  · decide

/-- Claim C2 (amended): when distributing a caption group of `count`
barcode ids over `n` distinct employees, the posting code gives the
employee at 0-based position `i < n-1` the consecutive ascending slice
`[i*p, (i+1)*p)` of the group, where `p = max(1, count div n)`, and the
LAST employee the slice `[(n-1)*p, count)` (all leftovers); walked in
employee-list order the slices are consecutive with no overlap and no
gaps — their concatenation is exactly the group.  (The preview-annotation
path `assign_employees_to_labels` never records a distribution at all: it
raises `AttributeError` before reaching its distribution code.) -/
theorem C2_distribution (employees barcodes : List String)
    (hnd : employees.Nodup) (i : Nat) (hi : i < employees.length) :
    (employees.map (fun emp => allocatedBarcodes employees emp barcodes)).flatten
      = barcodes
    ∧ allocatedBarcodes employees employees[i] barcodes =
        (if i = employees.length - 1 then
          barcodes.drop (i * max 1 (barcodes.length / employees.length))
        else
          (barcodes.drop (i * max 1 (barcodes.length / employees.length))).take
            (max 1 (barcodes.length / employees.length))) := by
  constructor
  · rw [allocated_map_eq_segs employees hnd barcodes]
    exact segs_flatten _ _ _ (by omega)
  · exact allocatedBarcodes_getElem employees hnd i hi barcodes

/-- Witness for Claim C2 (amended), at the claim's own scenario: 4 barcodes
`m0000000000..m0000000003` for caption `"Foam Board x 25"` across
`["Alice", "Bob", "Carol"]`; concatenating the three slices in employee
order returns the whole group. -/
theorem C2_distribution_witness :
    (["Alice", "Bob", "Carol"].map (fun emp =>
        allocatedBarcodes ["Alice", "Bob", "Carol"] emp
          (taskBarcodes (List.replicate 4 "Foam Board x 25") 0 "Foam Board x 25"))).flatten
      = taskBarcodes (List.replicate 4 "Foam Board x 25") 0 "Foam Board x 25" :=
  (C2_distribution ["Alice", "Bob", "Carol"]
    (taskBarcodes (List.replicate 4 "Foam Board x 25") 0 "Foam Board x 25")
    (by decide) 0 (by decide)).1

/-- Claim C3, counterexample: a caption group of 5 barcodes across 3
employees gives shares `[1, 1, 3]` — the sizes do sum to 5, but the
largest share exceeds the smallest by 2, not at most 1. -/
theorem C3_counterexample_spread :
    (["A", "B", "C"].map (fun e =>
        (allocatedBarcodes ["A", "B", "C"] e
          (taskBarcodes (List.replicate 5 "T x 1") 0 "T x 1")).length))
      = [1, 1, 3]
    ∧ ¬ ((3 : Nat) - 1 ≤ 1) := by
  constructor
  · decide
  · decide

/-- Claim C3 (amended): for a caption group of size `count` across `n`
distinct employees, the share sizes sum to exactly `count` (this half of
the claim holds); but employee `i < n-1` receives
`min p (count - i*p)` ids with `p = max(1, count div n)`, while the last
employee receives all `count - (n-1)*p` remaining ids, so the gap between
largest and smallest share equals `count mod n` when `count ≥ n` and is
not bounded by 1. -/
theorem C3_share_sizes (employees barcodes : List String)
    (hnd : employees.Nodup) (hne : employees ≠ []) :
    (employees.map (fun emp =>
        (allocatedBarcodes employees emp barcodes).length)).sum = barcodes.length
    ∧ ∀ i, ∀ hi : i < employees.length,
        (allocatedBarcodes employees employees[i] barcodes).length =
          if i = employees.length - 1 then
            barcodes.length - i * max 1 (barcodes.length / employees.length)
          else
            min (max 1 (barcodes.length / employees.length))
              (barcodes.length - i * max 1 (barcodes.length / employees.length)) := by
  constructor
  · have hflat := (C2_distribution employees barcodes hnd 0
      (by cases employees with
          | nil => exact absurd rfl hne
          | cons a t => simp)).1
    calc (employees.map (fun emp =>
            (allocatedBarcodes employees emp barcodes).length)).sum
        = ((employees.map (fun emp =>
            allocatedBarcodes employees emp barcodes)).map List.length).sum := by
          rw [List.map_map]; rfl
      _ = (employees.map (fun emp =>
            allocatedBarcodes employees emp barcodes)).flatten.length :=
          (List.length_flatten _).symm
      _ = barcodes.length := by rw [hflat]
  · intro i hi
    rw [allocatedBarcodes_getElem employees hnd i hi barcodes]
    by_cases h : i = employees.length - 1
    · rw [if_pos h, if_pos h, List.length_drop]
    · rw [if_neg h, if_neg h, List.length_take, List.length_drop]

/-- Witness for Claim C3 (amended): the 5-across-3 scenario; the shares
`[1, 1, 3]` sum to the group size 5. -/
theorem C3_share_sizes_witness :
    (["A", "B", "C"].map (fun emp =>
        (allocatedBarcodes ["A", "B", "C"] emp
          (taskBarcodes (List.replicate 5 "T x 1") 0 "T x 1")).length)).sum
      = (taskBarcodes (List.replicate 5 "T x 1") 0 "T x 1").length :=
  (C3_share_sizes ["A", "B", "C"]
    (taskBarcodes (List.replicate 5 "T x 1") 0 "T x 1")
    (by decide) (by decide)).1



/-! ### Preview employee annotation (`PDFPreview.assign_employees_to_labels`,
manualTasks.py lines 501–560)

After the two early returns (empty label list: plain return; empty
employee list: clear `label_assignments` to `{}`), line 515 evaluates
`hasattr(self.pdf_preview, "startCode")`.  `self` is the `PDFPreview`
instance, and no `pdf_preview` attribute is ever set on `PDFPreview`
(only `manualTaskScreen` has one, line 1791); since the argument
`self.pdf_preview` is evaluated before `hasattr` is applied, Python
raises `AttributeError` at line 515, before any assignment is recorded.
The undefined names `labels` and `task_barcodes` at lines 518–521 are
never reached.  Embedded with `Except`: the error value models the
uncaught exception. -/

/-- `PDFPreview.assign_employees_to_labels` (lines 501–560). -/
def assign_employees_to_labels (labels employees : List String)
    (label_assignments : List (Nat × String)) :
    Except String (List (Nat × String)) :=
  if labels.isEmpty then Except.ok label_assignments
  else if employees.isEmpty then Except.ok []
  else Except.error "AttributeError: PDFPreview object has no attribute pdf_preview"

/-- `_update_preview_after_popup` (lines 1401–1413), the only call site of
the method: it wraps the call in `try/except Exception`, printing a
warning and leaving the preview state untouched when the call raises. -/
def update_preview_after_popup (labels employees : List String)
    (label_assignments : List (Nat × String)) : List (Nat × String) :=
  match assign_employees_to_labels labels employees label_assignments with
  | Except.ok a => a
  | Except.error _ => label_assignments

/-- Claim C4, counterexample: on the non-trivial path the method does
raise, but the exception is the `AttributeError` from `self.pdf_preview`
at line 515, not the `NameError` from the undefined names at line 518 the
claim asserts — those lines are never reached. -/
theorem C4_counterexample_wrong_exception :
    assign_employees_to_labels ["Foam Board x 25"] ["Alice"] [(0, "Bob")] =
      Except.error "AttributeError: PDFPreview object has no attribute pdf_preview"
    ∧ ¬ (assign_employees_to_labels ["Foam Board x 25"] ["Alice"] [(0, "Bob")] =
        Except.error "NameError: name labels is not defined") := by
  constructor
  · rfl
  · intro h
    rw [show assign_employees_to_labels ["Foam Board x 25"] ["Alice"] [(0, "Bob")] =
        Except.error "AttributeError: PDFPreview object has no attribute pdf_preview"
        from rfl] at h
    exact absurd (Except.error.inj h) (by decide)

/-- Claim C4 (amended): whenever `assign_employees_to_labels` is called
with non-empty labels and a non-empty employee list it raises an uncaught
`AttributeError` (line 515 evaluates `self.pdf_preview`, which does not
exist on `PDFPreview`) before recording any assignment, so
`label_assignments` is unchanged; the only caller swallows the exception,
so the annotation mapping is never populated through this method. -/
theorem C4_assign_raises (labels employees : List String)
    (label_assignments : List (Nat × String))
    (hl : labels ≠ []) (he : employees ≠ []) :
    assign_employees_to_labels labels employees label_assignments =
      Except.error "AttributeError: PDFPreview object has no attribute pdf_preview"
    ∧ update_preview_after_popup labels employees label_assignments =
        label_assignments := by
  have h1 : labels.isEmpty = false := by
    cases labels with
    | nil => exact absurd rfl hl
    | cons a t => rfl
  have h2 : employees.isEmpty = false := by
    cases employees with
    | nil => exact absurd rfl he
    | cons a t => rfl
  constructor
  · simp [assign_employees_to_labels, h1, h2]
  · simp [update_preview_after_popup, assign_employees_to_labels, h1, h2]

/-- Witness for Claim C4 (amended): one label, one employee, an existing
assignment mapping; the call errors and the caller leaves the mapping
unchanged. -/
theorem C4_assign_raises_witness :
    assign_employees_to_labels ["Foam Board x 25"] ["Alice"] [(0, "Bob")] =
      Except.error "AttributeError: PDFPreview object has no attribute pdf_preview"
    ∧ update_preview_after_popup ["Foam Board x 25"] ["Alice"] [(0, "Bob")] =
        [(0, "Bob")] :=
  C4_assign_raises ["Foam Board x 25"] ["Alice"] [(0, "Bob")]
    (by decide) (by decide)

/-! ### Committing assignments (`run_post_all` inside
`activate_assigned_tasks`, manualTasks.py lines 2285–2332)

For each employee (in table order), for each task row, the employee slice
of the caption group is walked and one `update_employee_task` call is made
per barcode id; the call sits in its own `try/except`, a `"success"`
response bumps the success counter and anything else (error response or
exception) bumps the failure counter, after which the loop continues.
The external service is modelled as a function `resp` from the call
arguments to an outcome. -/

/-- Outcome of one `update_employee_task` call as the loop classifies it:
`status == "success"`, an error response, or a raised exception. -/
inductive CallResult where
  | success : CallResult
  | failure (msg : String) : CallResult
  | exc (msg : String) : CallResult

/-- Body of the innermost `for bc in allocated` loop (lines 2304–2321):
accumulator is `(success, fail, calls made so far)`. -/
def postCallStep (resp : String → String → String → CallResult)
    (emp label : String)
    (acc : Nat × Nat × List (String × String × String)) (bc : String) :
    Nat × Nat × List (String × String × String) :=
  match resp emp label bc with
  | CallResult.success => (acc.1 + 1, acc.2.1, acc.2.2 ++ [(emp, label, bc)])
  | _ => (acc.1, acc.2.1 + 1, acc.2.2 ++ [(emp, label, bc)])

/-- The `for label, count in tasks` loop of `run_post_all` for one
employee, starting from `success = fail = 0`: skips captions with no
barcodes, otherwise walks the employee slice call by call. -/
def postForEmployee (resp : String → String → String → CallResult)
    (employees : List String) (tasks : List (String × Int))
    (tb : String → List String) (emp : String) :
    Nat × Nat × List (String × String × String) :=
  tasks.foldl
    (fun acc t =>
      if (tb t.1).isEmpty then acc
      else (allocatedBarcodes employees emp (tb t.1)).foldl
        (postCallStep resp emp t.1) acc)
    (0, 0, [])

/-- The whole `run_post_all` loop: every employee is processed in list
order, unconditionally. -/
def runPostAll (resp : String → String → String → CallResult)
    (employees : List String) (tasks : List (String × Int))
    (tb : String → List String) :
    List (Nat × Nat × List (String × String × String)) :=
  employees.map (fun emp => postForEmployee resp employees tasks tb emp)

/-- The calls `run_post_all` is supposed to make for one employee: one per
barcode id of the employee slice of each caption group that has barcodes. -/
def plannedCalls (employees : List String) (tasks : List (String × Int))
    (tb : String → List String) (emp : String) :
    List (String × String × String) :=
  tasks.flatMap (fun t =>
    if (tb t.1).isEmpty then []
    else (allocatedBarcodes employees emp (tb t.1)).map (fun bc => (emp, t.1, bc)))

theorem postCallStep_foldl (resp : String → String → String → CallResult)
    (emp label : String) (bcs : List String) :
    ∀ acc : Nat × Nat × List (String × String × String),
    (bcs.foldl (postCallStep resp emp label) acc).2.2 =
        acc.2.2 ++ bcs.map (fun bc => (emp, label, bc))
    ∧ (bcs.foldl (postCallStep resp emp label) acc).1 +
        (bcs.foldl (postCallStep resp emp label) acc).2.1 =
        acc.1 + acc.2.1 + bcs.length := by
  induction bcs with
  | nil => intro acc; simp
  | cons bc rest ih =>
    intro acc
    simp only [List.foldl_cons, List.map_cons, List.length_cons]
    have step :
        (postCallStep resp emp label acc bc).2.2 = acc.2.2 ++ [(emp, label, bc)]
        ∧ (postCallStep resp emp label acc bc).1 +
            (postCallStep resp emp label acc bc).2.1 = acc.1 + acc.2.1 + 1 := by
      unfold postCallStep
      cases resp emp label bc <;> simp <;> omega
    obtain ⟨ih1, ih2⟩ := ih (postCallStep resp emp label acc bc)
    refine ⟨?_, ?_⟩
    · rw [ih1, step.1]
      simp
    · rw [ih2, step.2]
      omega

theorem plannedCalls_cons (employees : List String) (t : String × Int)
    (rest : List (String × Int)) (tb : String → List String) (emp : String) :
    plannedCalls employees (t :: rest) tb emp =
      (if (tb t.1).isEmpty then []
       else (allocatedBarcodes employees emp (tb t.1)).map (fun bc => (emp, t.1, bc)))
        ++ plannedCalls employees rest tb emp := by
  simp [plannedCalls]

theorem postForEmployee_spec (resp : String → String → String → CallResult)
    (employees : List String) (tasks : List (String × Int))
    (tb : String → List String) (emp : String) :
    (postForEmployee resp employees tasks tb emp).2.2 =
        plannedCalls employees tasks tb emp
    ∧ (postForEmployee resp employees tasks tb emp).1 +
        (postForEmployee resp employees tasks tb emp).2.1 =
        (plannedCalls employees tasks tb emp).length := by
  suffices h : ∀ acc : Nat × Nat × List (String × String × String),
      (tasks.foldl
        (fun acc t =>
          if (tb t.1).isEmpty then acc
          else (allocatedBarcodes employees emp (tb t.1)).foldl
            (postCallStep resp emp t.1) acc) acc).2.2 =
        acc.2.2 ++ plannedCalls employees tasks tb emp
      ∧ (tasks.foldl
        (fun acc t =>
          if (tb t.1).isEmpty then acc
          else (allocatedBarcodes employees emp (tb t.1)).foldl
            (postCallStep resp emp t.1) acc) acc).1 +
        (tasks.foldl
          (fun acc t =>
            if (tb t.1).isEmpty then acc
            else (allocatedBarcodes employees emp (tb t.1)).foldl
              (postCallStep resp emp t.1) acc) acc).2.1 =
        acc.1 + acc.2.1 + (plannedCalls employees tasks tb emp).length by
    have h0 := h (0, 0, [])
    unfold postForEmployee
    simpa using h0
  induction tasks with
  | nil => intro acc; simp [plannedCalls]
  | cons t rest ih =>
    intro acc
    simp only [List.foldl_cons, plannedCalls_cons]
    by_cases hb : (tb t.1).isEmpty
    · rw [if_pos hb, if_pos hb]
      obtain ⟨ih1, ih2⟩ := ih acc
      exact ⟨by rw [ih1]; simp, by rw [ih2]; simp⟩
    · rw [if_neg hb, if_neg hb]
      obtain ⟨ih1, ih2⟩ := ih ((allocatedBarcodes employees emp (tb t.1)).foldl
        (postCallStep resp emp t.1) acc)
      obtain ⟨s1, s2⟩ := postCallStep_foldl resp emp t.1
        (allocatedBarcodes employees emp (tb t.1)) acc
      constructor
      · rw [ih1, s1, List.append_assoc]
      · rw [ih2, s2]
        simp only [List.length_append, List.length_map]
        omega

/-- Claim C10: committing assignments sends each
`(employee, caption, barcodeId)` update as its own call; the sequence of
calls attempted does not depend on the outcomes of any call (continue on
error, both within an employee and across employees — `runPostAll`
processes every employee unconditionally); and each employee\u2019s success
and failure counters tally exactly the calls made for that employee. -/
theorem C10_commit_continue_on_error
    (resp respB : String → String → String → CallResult)
    (employees : List String) (tasks : List (String × Int))
    (tb : String → List String) (emp : String) :
    (postForEmployee resp employees tasks tb emp).2.2 =
        plannedCalls employees tasks tb emp
    ∧ (postForEmployee resp employees tasks tb emp).2.2 =
        (postForEmployee respB employees tasks tb emp).2.2
    ∧ (postForEmployee resp employees tasks tb emp).1 +
        (postForEmployee resp employees tasks tb emp).2.1 =
        (plannedCalls employees tasks tb emp).length
    ∧ runPostAll resp employees tasks tb =
        employees.map (fun e => postForEmployee resp employees tasks tb e) := by
  obtain ⟨h1, h2⟩ := postForEmployee_spec resp employees tasks tb emp
  obtain ⟨h1B, _⟩ := postForEmployee_spec respB employees tasks tb emp
  exact ⟨h1, h1.trans h1B.symm, h2, rfl⟩

/-! ### Barcode numbering (`paintEvent` lines 676–681 and
`activate_assigned_tasks` lines 2243–2257)

Both sites compute the same id for the label at flattened position
`global_idx`: `start_num = int(startCode[1:])` when
`str(startCode).startswith("m")` and the parse succeeds (the activate site
guards the parse with `try/except ValueError`, falling back to 0), else
`start_num = 0`; the id is `f"m{start_num + global_idx:010d}"`.
`startCode` itself is set once in `PDFPreview.__init__` (lines 473–486)
from the last barcode of the employee-task service. -/

/-- Python `str.startswith`, modelled on the character list. -/
def pyStartsWith (s p : String) : Bool :=
  p.toList.isPrefixOf s.toList

/-- Python `str.isdigit` on a character list (ASCII digits). -/
def pyIsDigitStr (cs : List Char) : Bool :=
  !cs.isEmpty && cs.all Char.isDigit

/-- The `startCode` attribute: Python `None`, an int (the service may hand
back a number), or a string. -/
inductive StartCode where
  | none : StartCode
  | int (n : Int) : StartCode
  | str (s : String) : StartCode

/-- Python `str(startCode)`. -/
def startCodeStr : StartCode → String
  | StartCode.none => "None"
  | StartCode.int n => intToStr n
  | StartCode.str s => s

/-- `start_num` as computed at the activate site (lines 2244–2249):
`int(startCode[1:])` behind `startswith("m")`, with `ValueError` → 0. -/
def startNumOf (sc : StartCode) : Int :=
  if pyStartsWith (startCodeStr sc) "m" then
    match pyIntParse (String.mk ((startCodeStr sc).toList.drop 1)) with
    | some n => n
    | Option.none => 0
  else 0

/-- The barcode id of the label at flattened position `idx`:
`f"m{start_num + idx:010d}"` (both code sites). -/
def barcodeIdAt (sc : StartCode) (idx : Nat) : String :=
  "m" ++ zfill 10 (intToStr (startNumOf sc + idx))

/-- Spec-side (follows the claim's words): does the character list match
the regex `m` followed by one or more digits? -/
def spec_matchesMDigitsList : List Char → Bool
  | [] => false
  | c :: rest => c == 'm' && pyIsDigitStr rest

/-- Spec-side: the regex applied to the string form. -/
def spec_matchesMDigits (s : String) : Bool :=
  spec_matchesMDigitsList s.toList

/-- Spec-side (follows the claim's words): the numeric suffix when
`startCode` matches the regex, else 0. -/
def spec_startNum : StartCode → Int
  | StartCode.str s =>
      if spec_matchesMDigits s then (digitsVal (s.toList.drop 1) : Int) else 0
  | _ => 0

theorem isDigit_ne {c : Char} (h : c.isDigit = true) {d : Char}
    (hd : d.isDigit = false) : c ≠ d := by
  intro he
  subst he
  rw [hd] at h
  exact absurd h (by simp)

theorem isDigit_not_space {c : Char} (h : c.isDigit = true) : pyIsSpace c = false := by
  have h1 : c ≠ ' ' := isDigit_ne h (by decide)
  have h2 : c ≠ '\t' := isDigit_ne h (by decide)
  have h3 : c ≠ '\n' := isDigit_ne h (by decide)
  have h4 : c ≠ '\r' := isDigit_ne h (by decide)
  have h5 : c ≠ '\x0b' := isDigit_ne h (by decide)
  have h6 : c ≠ '\x0c' := isDigit_ne h (by decide)
  simp [pyIsSpace, h1, h2, h3, h4, h5, h6]

theorem dropWhile_cons_digit {c : Char} {t : List Char} (hc : c.isDigit = true) :
    (c :: t).dropWhile pyIsSpace = c :: t :=
  List.dropWhile_cons_of_neg (by simp [isDigit_not_space hc])

theorem pyStripList_of_digits {cs : List Char} (hne : cs ≠ [])
    (hall : ∀ c ∈ cs, c.isDigit = true) : pyStripList cs = cs := by
  have hd : cs.dropWhile pyIsSpace = cs := by
    cases cs with
    | nil => rfl
    | cons a t => exact dropWhile_cons_digit (hall a (by simp))
  unfold pyStripList
  rw [hd]
  cases hrev : cs.reverse with
  | nil =>
    rw [List.reverse_eq_nil_iff] at hrev
    exact absurd hrev hne
  | cons b u =>
    have hb : b ∈ cs := by
      rw [← List.mem_reverse, hrev]
      simp
    rw [dropWhile_cons_digit (hall b hb), ← hrev, List.reverse_reverse]

theorem pyDigitTail_of_digits :
    ∀ cs : List Char, (∀ c ∈ cs, c.isDigit = true) → pyDigitTail cs = true
  | [], _ => rfl
  | [c], hall => by
    have hc := hall c (by simp)
    have hu : c ≠ '_' := isDigit_ne hc (by decide)
    simp [pyDigitTail, hu, hc]
  | c :: d :: rest, hall => by
    have hc := hall c (by simp)
    have ht := pyDigitTail_of_digits (d :: rest)
      (fun e he => hall e (List.mem_cons_of_mem c he))
    simp only [pyDigitTail]
    rw [if_neg (isDigit_ne hc (by decide))]
    simp [hc, ht]

theorem pyIntParse_digits {cs : List Char} (hne : cs ≠ [])
    (hall : ∀ c ∈ cs, c.isDigit = true) :
    pyIntParse (String.mk cs) = some ((digitsVal cs : Int)) := by
  unfold pyIntParse
  have htl : (String.mk cs).toList = cs := rfl
  rw [htl, pyStripList_of_digits hne hall]
  cases cs with
  | nil => exact absurd rfl hne
  | cons c rest =>
    have hc := hall c (by simp)
    have hseq : pyDigitsSeq (c :: rest) = true := by
      simp [pyDigitsSeq, hc,
        pyDigitTail_of_digits rest (fun d hd => hall d (List.mem_cons_of_mem c hd))]
    simp only [pyIntParseCore]
    rw [if_neg (isDigit_ne hc (by decide)), if_neg (isDigit_ne hc (by decide)),
      if_pos hseq]

theorem digitChr_isDigit {d : Nat} (h : d < 10) : (digitChr d).isDigit = true := by
  interval_cases d <;> decide

theorem natDigitsAux_all :
    ∀ (fuel n : Nat), ∀ c ∈ natDigitsAux fuel n, c.isDigit = true
  | 0, _ => by intro c hc; simp [natDigitsAux] at hc
  | fuel + 1, n => by
    intro c hc
    simp only [natDigitsAux] at hc
    by_cases h : n < 10
    · rw [if_pos h] at hc
      simp at hc
      subst hc
      exact digitChr_isDigit h
    · rw [if_neg h] at hc
      rcases List.mem_append.mp hc with h1 | h1
      · exact natDigitsAux_all fuel (n / 10) c h1
      · simp at h1
        subst h1
        exact digitChr_isDigit (Nat.mod_lt _ (by omega))

theorem natDigits_all (n : Nat) : ∀ c ∈ natDigits n, c.isDigit = true :=
  natDigitsAux_all (n + 1) n

theorem natDigits_ne_nil (n : Nat) : natDigits n ≠ [] := by
  unfold natDigits natDigitsAux
  split <;> simp

theorem intToStr_not_m (n : Int) : pyStartsWith (intToStr n) "m" = false := by
  unfold pyStartsWith intToStr
  by_cases h : n < 0
  · rw [if_pos h]
    simp [List.isPrefixOf]
  · rw [if_neg h]
    cases hnd : natDigits n.natAbs with
    | nil => exact absurd hnd (natDigits_ne_nil _)
    | cons d rest =>
      have hd : d.isDigit = true := natDigits_all _ d (by rw [hnd]; simp)
      have hdm : d ≠ 'm' := isDigit_ne hd (by decide)
      show List.isPrefixOf ['m'] (String.mk (d :: rest)).toList = false
      simp [List.isPrefixOf, Ne.symm hdm]

theorem spec_matchesMDigits_of_not_m {s : String}
    (h : pyStartsWith s "m" = false) : spec_matchesMDigits s = false := by
  unfold pyStartsWith at h
  unfold spec_matchesMDigits
  cases hsl : s.toList with
  | nil => rfl
  | cons c rest =>
    rw [hsl] at h
    simp only [List.isPrefixOf] at h
    have hmc : ('m' == c) = false := by
      cases hmc2 : ('m' == c) with
      | false => rfl
      | true => rw [hmc2] at h; simp at h
    have hcm : (c == 'm') = false := by
      cases hcm2 : (c == 'm') with
      | false => rfl
      | true =>
        rw [beq_iff_eq] at hcm2
        rw [hcm2] at hmc
        simp at hmc
    simp [spec_matchesMDigitsList, hcm]

theorem pyIsDigitStr_of {L : List Char} (hne : L ≠ [])
    (hall : ∀ c ∈ L, c.isDigit = true) : pyIsDigitStr L = true := by
  unfold pyIsDigitStr
  cases L with
  | nil => exact absurd rfl hne
  | cons a t =>
    simp only [List.isEmpty_cons, Bool.not_false, Bool.true_and, List.all_eq_true]
    exact hall

theorem zfill_digits {s : String} (hne : s.toList ≠ [])
    (hall : ∀ c ∈ s.toList, c.isDigit = true) :
    (zfill 10 s).toList ≠ [] ∧ ∀ c ∈ (zfill 10 s).toList, c.isDigit = true := by
  unfold zfill
  by_cases h : 10 ≤ s.length
  · rw [if_pos h]
    exact ⟨hne, hall⟩
  · rw [if_neg h]
    cases hsl : s.toList with
    | nil => exact absurd hsl hne
    | cons c rest =>
      have hc : c.isDigit = true := hall c (by rw [hsl]; simp)
      have hcm : ¬ (c = '-' ∨ c = '+') := by
        rintro (h1 | h1)
        · exact absurd h1 (isDigit_ne hc (by decide))
        · exact absurd h1 (isDigit_ne hc (by decide))
      simp only [zfillCore]
      rw [if_neg hcm]
      constructor
      · simp
      · intro d hd
        simp only [String.toList] at hd
        rcases List.mem_append.mp hd with h1 | h1
        · rw [List.eq_of_mem_replicate h1]
          decide
        · exact hall d (by rw [hsl]; exact h1)

/-- Claim C6: for every label at flattened position `idx` and every
startCode of the shapes the program constructs (absent, an int, or a
string that either does not start with `"m"` or matches `m` followed by
digits — every id the app itself issues has the 10-digit form
`m\\d{10}`), the assigned barcode id is `"m"` followed by
`startNum + idx` zero-padded to 10 digits, with `startNum` the numeric
suffix when startCode matches the regex and 0 otherwise. -/
theorem C6_barcode_numbering (sc : StartCode) (idx : Nat)
    (h : ∀ s, sc = StartCode.str s → pyStartsWith s "m" = true →
      spec_matchesMDigits s = true) :
    barcodeIdAt sc idx = "m" ++ zfill 10 (intToStr (spec_startNum sc + idx)) := by
  suffices hs : startNumOf sc = spec_startNum sc by
    rw [barcodeIdAt, hs]
  cases sc with
  | none => decide
  | int n =>
    show startNumOf (StartCode.int n) = 0
    unfold startNumOf
    rw [if_neg]
    rw [show startCodeStr (StartCode.int n) = intToStr n from rfl,
      intToStr_not_m n]
    simp
  | str s =>
    have hstr : startCodeStr (StartCode.str s) = s := rfl
    by_cases hm : pyStartsWith s "m"
    · have hmatch := h s rfl hm
      unfold spec_matchesMDigits at hmatch
      cases hsl : s.toList with
      | nil =>
        rw [hsl] at hmatch
        simp [spec_matchesMDigitsList] at hmatch
      | cons c rest =>
        rw [hsl] at hmatch
        simp only [spec_matchesMDigitsList, Bool.and_eq_true, beq_iff_eq] at hmatch
        obtain ⟨hcm, hdig⟩ := hmatch
        simp only [pyIsDigitStr, Bool.and_eq_true, List.all_eq_true] at hdig
        obtain ⟨hner, hall⟩ := hdig
        have hner' : rest ≠ [] := by
          cases rest with
          | nil => simp at hner
          | cons a t => simp
        have hparse := pyIntParse_digits hner'
          (fun d hd => by simpa using hall d hd)
        have hmatch2 : spec_matchesMDigits s = true := by
          unfold spec_matchesMDigits
          rw [hsl]
          simp only [spec_matchesMDigitsList, Bool.and_eq_true, beq_iff_eq]
          refine ⟨hcm, ?_⟩
          simp only [pyIsDigitStr, Bool.and_eq_true, List.all_eq_true]
          exact ⟨hner, hall⟩
        unfold startNumOf
        rw [hstr, if_pos hm, hsl]
        simp only [List.drop_succ_cons, List.drop_zero]
        rw [hparse]
        simp only [spec_startNum]
        rw [if_pos hmatch2, hsl]
        simp
    · have hnm : pyStartsWith s "m" = false := by simpa using hm
      unfold startNumOf
      rw [hstr, if_neg (by rw [hnm]; simp)]
      simp only [spec_startNum]
      rw [if_neg (by rw [spec_matchesMDigits_of_not_m hnm]; simp)]

/-- Witness for Claim C6: the claim's continuation scenario — with
`startCode = "m0000000005"` the label at position 1 gets id
`m0000000006` (and the label at position 0 keeps `m0000000005`). -/
theorem C6_barcode_numbering_witness :
    barcodeIdAt (StartCode.str "m0000000005") 1 = "m0000000006"
    ∧ barcodeIdAt (StartCode.str "m0000000005") 0 = "m0000000005" := by
  have h1 := C6_barcode_numbering (StartCode.str "m0000000005") 1
    (by intro s hs hm; cases hs; decide)
  have h0 := C6_barcode_numbering (StartCode.str "m0000000005") 0
    (by intro s hs hm; cases hs; decide)
  constructor
  · rw [h1]; decide
  · rw [h0]; decide

/-- The `startCode` derivation of `PDFPreview.__init__` (lines 473–486):
the last entry of the last live task (`tasks[-1][-1]`, a string or an int
from the service; `Option.none` models the empty/falsy task list).  An
`m`-plus-digits string is bumped by one and reformatted as
`f"m{num:010d}"`; any other string is kept as is; an int is incremented;
otherwise `startCode = None`. -/
def deriveStartCode : Option (String ⊕ Int) → StartCode
  | Option.none => StartCode.none
  | some (Sum.inl s0) =>
      if pyStartsWith s0 "m" && pyIsDigitStr (s0.toList.drop 1) then
        StartCode.str ("m" ++ zfill 10 (intToStr ((digitsVal (s0.toList.drop 1) : Int) + 1)))
      else StartCode.str s0
  | some (Sum.inr n) => StartCode.int (n + 1)

/-- Every startCode that `__init__` derives from a well-formed service
value (its `m`-prefixed strings have all-digit suffixes, as the ids issued
by the app do) satisfies the hypothesis of `C6_barcode_numbering`. -/
theorem deriveStartCode_good (v : Option (String ⊕ Int))
    (hv : ∀ s0, v = some (Sum.inl s0) → pyStartsWith s0 "m" = true →
      pyIsDigitStr (s0.toList.drop 1) = true) :
    ∀ s, deriveStartCode v = StartCode.str s →
      pyStartsWith s "m" = true → spec_matchesMDigits s = true := by
  intro s hder hm
  cases v with
  | none => simp [deriveStartCode] at hder
  | some w =>
    cases w with
    | inr n => simp [deriveStartCode] at hder
    | inl s0 =>
      simp only [deriveStartCode] at hder
      by_cases hcond : (pyStartsWith s0 "m" && pyIsDigitStr (s0.toList.drop 1)) = true
      · rw [if_pos hcond] at hder
        obtain rfl := (StartCode.str.inj hder).symm
        have hpos : ¬ ((digitsVal (s0.toList.drop 1) : Int) + 1 < 0) := by
          have : (0 : Int) ≤ (digitsVal (s0.toList.drop 1) : Int) := Int.natCast_nonneg _
          omega
        have htl : (intToStr ((digitsVal (s0.toList.drop 1) : Int) + 1)).toList =
            natDigits ((digitsVal (s0.toList.drop 1) : Int) + 1).natAbs := by
          unfold intToStr
          rw [if_neg hpos]
          rfl
        have hzd := zfill_digits
          (s := intToStr ((digitsVal (s0.toList.drop 1) : Int) + 1))
          (by rw [htl]; exact natDigits_ne_nil _)
          (by rw [htl]; exact natDigits_all _)
        have happ : ("m" ++ zfill 10 (intToStr ((digitsVal (s0.toList.drop 1) : Int) + 1))).toList =
            'm' :: (zfill 10 (intToStr ((digitsVal (s0.toList.drop 1) : Int) + 1))).toList := rfl
        unfold spec_matchesMDigits
        rw [happ]
        simp only [spec_matchesMDigitsList]
        rw [pyIsDigitStr_of hzd.1 hzd.2]
        simp
      · rw [if_neg hcond] at hder
        obtain rfl := (StartCode.str.inj hder).symm
        have hdig := hv s rfl hm
        rw [hm, hdig] at hcond
        exact absurd rfl hcond

/-! ### Tracking flow-chart layout (`FlowChartWidget.display_flow`,
prodigallyScreen.py lines 326–402)

Constants: `top_padding = 40`, `y_spacing = 100`, `x_spacing = 300`.  Each
event string is split on `"|"`; the station is the second part, stripped;
`is_reprint = station.upper() == "REPRINT"` (line 366).  The node is
drawn at the cursor `(current_x, current_y)`: red with a transparent pen
when reprint (line 367–368), blue otherwise; the connecting line from the
previous chain node is drawn only for normal nodes with a chain anchor
(lines 384–386).  After a reprint the cursor moves right by `x_spacing`
at the same row and the anchor is cleared (lines 389–393); after a normal
node the anchor becomes this node and the cursor moves down by
`y_spacing` (lines 394–396). -/

/-- Python `str.split(sep)` for a one-character separator, on character
lists (`acc` holds the current field, reversed). -/
def pySplitAux (sep : Char) : List Char → List Char → List (List Char)
  | [], acc => [acc.reverse]
  | c :: rest, acc =>
    if c = sep then acc.reverse :: pySplitAux sep rest []
    else pySplitAux sep rest (c :: acc)

/-- `parts[1].strip() if len(parts) > 1 else ""` (lines 345–347), with
`parts = event_str.split("|")`. -/
def stationOf (event_str : String) : String :=
  match (pySplitAux '|' event_str.toList []).drop 1 with
  | st :: _ => String.mk (pyStripList st)
  | [] => ""

/-- `station.upper() == "REPRINT"` (line 366). -/
def isReprintEvent (e : String) : Bool :=
  pyUpper (stationOf e) == "REPRINT"

/-- What `display_flow` draws for one event: the node position, whether it
is the distinguishing reprint rendering, and the chain-node center a
connecting line is drawn from (if any). -/
structure FlowNode where
  x : Nat
  y : Nat
  reprint : Bool
  lineFrom : Option (Nat × Nat)
  deriving Repr, DecidableEq

/-- Cursor state of the layout loop: `current_x`, `current_y`,
`prev_node_center`. -/
structure FlowState where
  x : Nat
  y : Nat
  prev : Option (Nat × Nat)
  deriving Repr, DecidableEq

/-- One iteration of the `for idx, event_str in enumerate(events)` loop. -/
def flowStep (st : FlowState) (e : String) : FlowNode × FlowState :=
  let rep := isReprintEvent e
  let node : FlowNode :=
    { x := st.x, y := st.y, reprint := rep,
      lineFrom := if rep then none else st.prev }
  if rep then (node, { x := st.x + 300, y := st.y, prev := none })
  else (node, { x := st.x, y := st.y + 100, prev := some (st.x, st.y) })

/-- The layout loop from an arbitrary cursor state. -/
def flowNodes : FlowState → List String → List FlowNode
  | _, [] => []
  | st, e :: rest =>
    (flowStep st e).1 :: flowNodes (flowStep st e).2 rest

/-- `FlowChartWidget.display_flow` (lines 326–402): nodes start at
`(top_padding, top_padding) = (40, 40)` with no chain anchor. -/
def display_flow (events : List String) : List FlowNode :=
  flowNodes { x := 40, y := 40, prev := none } events

/-- The default node used with `List.getD` in statements. -/
def noNode : FlowNode := { x := 0, y := 0, reprint := false, lineFrom := none }

theorem flowNodes_length : ∀ (st : FlowState) (es : List String),
    (flowNodes st es).length = es.length
  | _, [] => rfl
  | st, e :: rest => by
    simp only [flowNodes, List.length_cons]
    rw [flowNodes_length]

theorem flowNodes_node : ∀ (st : FlowState) (es : List String) (i : Nat),
    i < es.length →
    ((flowNodes st es).getD i noNode).reprint = isReprintEvent (es.getD i "")
    ∧ (isReprintEvent (es.getD i "") = true →
        ((flowNodes st es).getD i noNode).lineFrom = none)
  | _, [], i, hi => by simp at hi
  | st, e :: rest, 0, _ => by
    simp only [flowNodes, List.getD_cons_zero]
    unfold flowStep
    by_cases hr : isReprintEvent e
    · rw [if_pos hr]
      exact ⟨by simp [hr], fun _ => by simp [hr]⟩
    · rw [if_neg hr]
      have hr' : isReprintEvent e = false := by simpa using hr
      exact ⟨by simp [hr'], fun hcon => by rw [hr'] at hcon; simp at hcon⟩
  | st, e :: rest, i + 1, hi => by
    simp only [flowNodes, List.getD_cons_succ]
    exact flowNodes_node (flowStep st e).2 rest i (by simpa using hi)

theorem flowNodes_step : ∀ (st : FlowState) (es : List String) (i : Nat),
    i + 1 < es.length →
    (isReprintEvent (es.getD i "") = true →
      ((flowNodes st es).getD (i + 1) noNode).x =
        ((flowNodes st es).getD i noNode).x + 300
      ∧ ((flowNodes st es).getD (i + 1) noNode).y =
        ((flowNodes st es).getD i noNode).y
      ∧ ((flowNodes st es).getD (i + 1) noNode).lineFrom = none)
    ∧ (isReprintEvent (es.getD i "") = false →
      ((flowNodes st es).getD (i + 1) noNode).x =
        ((flowNodes st es).getD i noNode).x
      ∧ ((flowNodes st es).getD (i + 1) noNode).y =
        ((flowNodes st es).getD i noNode).y + 100
      ∧ (isReprintEvent (es.getD (i + 1) "") = false →
        ((flowNodes st es).getD (i + 1) noNode).lineFrom =
          some (((flowNodes st es).getD i noNode).x,
            ((flowNodes st es).getD i noNode).y)))
  | _, [], i, hi => by simp at hi
  | _, [e], 0, hi => by simp at hi
  | st, e :: e2 :: rest, 0, _ => by
    simp only [flowNodes, List.getD_cons_zero, List.getD_cons_succ]
    constructor
    · intro hr
      unfold flowStep
      rw [hr]
      simp only [if_true]
      by_cases hr2 : isReprintEvent e2
      · rw [if_pos hr2]
        simp [hr2]
      · rw [if_neg hr2]
        have hr2' : isReprintEvent e2 = false := by simpa using hr2
        simp [hr2']
    · intro hr
      unfold flowStep
      rw [hr]
      simp only [if_false, Bool.false_eq_true]
      by_cases hr2 : isReprintEvent e2
      · rw [if_pos hr2]
        have hr2' : isReprintEvent e2 = true := by simpa using hr2
        refine ⟨by simp, by simp, fun hcon => ?_⟩
        rw [hr2'] at hcon
        simp at hcon
      · rw [if_neg hr2]
        have hr2' : isReprintEvent e2 = false := by simpa using hr2
        simp [hr2']
  | st, e :: e2 :: rest, i + 1, hi => by
    simp only [flowNodes, List.getD_cons_succ]
    have h := flowNodes_step (flowStep st e).2 (e2 :: rest) i (by simpa using hi)
    simpa only [flowNodes] using h

/-- Claim C8: in the tracking flow-chart layout, nodes are placed in a
vertical chain (same column, rows 100 apart), except that a REPRINT event
(station equals `"REPRINT"` case-insensitively) is rendered in the
distinguishing color with no connecting line from the preceding chain,
and the following node starts a new column 300 to the right at the same
row as the reprint node, with subsequent normal events continuing
downward from that column (the first node of the new column also has no
incoming line; later normal nodes chain normally). -/
theorem C8_flow_layout (events : List String) (i : Nat) (hi : i + 1 < events.length) :
    (display_flow events).length = events.length
    ∧ ((display_flow events).getD i noNode).reprint = isReprintEvent (events.getD i "")
    ∧ (isReprintEvent (events.getD i "") = true →
        ((display_flow events).getD i noNode).lineFrom = none)
    ∧ (isReprintEvent (events.getD i "") = true →
        ((display_flow events).getD (i + 1) noNode).x =
          ((display_flow events).getD i noNode).x + 300
        ∧ ((display_flow events).getD (i + 1) noNode).y =
          ((display_flow events).getD i noNode).y
        ∧ ((display_flow events).getD (i + 1) noNode).lineFrom = none)
    ∧ (isReprintEvent (events.getD i "") = false →
        ((display_flow events).getD (i + 1) noNode).x =
          ((display_flow events).getD i noNode).x
        ∧ ((display_flow events).getD (i + 1) noNode).y =
          ((display_flow events).getD i noNode).y + 100
        ∧ (isReprintEvent (events.getD (i + 1) "") = false →
          ((display_flow events).getD (i + 1) noNode).lineFrom =
            some (((display_flow events).getD i noNode).x,
              ((display_flow events).getD i noNode).y))) := by
  have hnode := flowNodes_node { x := 40, y := 40, prev := none } events i (by omega)
  have hstep := flowNodes_step { x := 40, y := 40, prev := none } events i hi
  exact ⟨flowNodes_length _ _, hnode.1, hnode.2, hstep.1, hstep.2⟩

/-- Witness for Claim C8 at a concrete history: a normal event, a REPRINT
event, then a normal event — the post-reprint node sits 300 to the right
of the reprint node at the same row. -/
theorem C8_flow_layout_witness :
    ((display_flow ["2024-01-01|PACK|ann", "2024-01-02|Reprint|bob",
        "2024-01-03|SHIP|cy"]).getD 2 noNode).x =
      ((display_flow ["2024-01-01|PACK|ann", "2024-01-02|Reprint|bob",
        "2024-01-03|SHIP|cy"]).getD 1 noNode).x + 300 :=
  ((C8_flow_layout ["2024-01-01|PACK|ann", "2024-01-02|Reprint|bob",
      "2024-01-03|SHIP|cy"] 1 (by decide)).2.2.2.1 (by decide)).1

end ProdigiPulse
